import Mathlib

/-!
Verification of the RAG routing pipeline (CAP/Node.js service).

The JavaScript source is shallowly embedded: numbers are modelled as exact
rationals (ℚ); `Math.sqrt` is modelled by an explicit function parameter
`sqrtFn : ℚ → ℚ` together with hypotheses stating that it behaves as a
square root at the points where it is applied; JavaScript's special values
arising from division by zero are modelled by the `JNum` type below.
External collaborators (OpenAI, HANA, Nominatim, OSRM) are modelled as
oracle parameters, so each theorem quantifies over all of their behaviours.
-/

namespace RagPipeline

/-- Sum of squares of a vector, `vec.reduce((acc, val) => acc + val * val, 0)`. -/
def sumSq (v : List ℚ) : ℚ :=
  (v.map (fun x => x * x)).sum

/-- Dot product as computed by the `for` loop of `cosineSim`
(`dot += a[i] * b[i]`); the loop indices range over the common length,
as at every call site the two vectors have equal length. -/
def dotProd (a b : List ℚ) : ℚ :=
  (List.zipWith (fun x y => x * y) a b).sum

/-- A JavaScript number as produced by a division: an ordinary (finite)
value, `Infinity`, `-Infinity`, or `NaN`. -/
inductive JNum where
  | num (q : ℚ)
  | posInf
  | negInf
  | nan
deriving DecidableEq, Repr

/-- JavaScript division `x / y` on finite operands: `0/0` is `NaN`,
`x/0` for `x ≠ 0` is `±Infinity`, otherwise the exact quotient. -/
def jdiv (x y : ℚ) : JNum :=
  if y = 0 then
    if x = 0 then JNum.nan
    else if 0 < x then JNum.posInf else JNum.negInf
  else JNum.num (x / y)

/-- JavaScript strict greater-than `a > b`: any comparison involving
`NaN` is false; `Infinity` is greater than every other value and
`-Infinity` smaller than every other value. -/
def jgt : JNum → JNum → Bool
  | JNum.nan, _ => false
  | _, JNum.nan => false
  | JNum.num a, JNum.num b => decide (b < a)
  | JNum.num _, JNum.posInf => false
  | JNum.num _, JNum.negInf => true
  | JNum.posInf, JNum.posInf => false
  | JNum.posInf, _ => true
  | JNum.negInf, _ => false

/-- Model of `cosineSim(a, b)` from the AddressService:
`dot / (Math.sqrt(na) * Math.sqrt(nb))` where `dot`, `na`, `nb` are the
loop accumulators.  `Math.sqrt` is modelled by the parameter `sqrtFn`. -/
def cosineSim (sqrtFn : ℚ → ℚ) (a b : List ℚ) : JNum :=
  let dot := dotProd a b
  let na := sumSq a
  let nb := sumSq b
  jdiv dot (sqrtFn na * sqrtFn nb)

/-- Model of `normalizeL2(vec)` from the services: divide every component by the
Euclidean norm `Math.sqrt(vec.reduce(...))`, except that a zero norm
returns the vector unchanged.  `Math.sqrt` is modelled by `sqrtFn`. -/
def normalizeL2 (sqrtFn : ℚ → ℚ) (vec : List ℚ) : List ℚ :=
  let norm := sqrtFn (sumSq vec)
  if norm = 0 then vec else vec.map (fun v => v / norm)

lemma sumSq_nil : sumSq [] = 0 := rfl

lemma sumSq_cons (x : ℚ) (xs : List ℚ) : sumSq (x :: xs) = x * x + sumSq xs := by
  simp [sumSq]

lemma sumSq_nonneg (v : List ℚ) : 0 ≤ sumSq v := by
  induction v with
  | nil => simp [sumSq]
  | cons x xs ih =>
      rw [sumSq_cons]
      nlinarith [mul_self_nonneg x]

lemma sumSq_eq_zero_iff (v : List ℚ) : sumSq v = 0 ↔ ∀ x ∈ v, x = 0 := by
  induction v with
  | nil => simp [sumSq]
  | cons x xs ih =>
      rw [sumSq_cons]
      constructor
      · intro h
        have hxs := sumSq_nonneg xs
        have hx2 := mul_self_nonneg x
        have hx : x = 0 := by
          have : x * x = 0 := by linarith
          exact mul_self_eq_zero.mp this
        have hs : sumSq xs = 0 := by linarith
        intro y hy
        rcases List.mem_cons.mp hy with h1 | h2
        · rw [h1, hx]
        · exact (ih.mp hs) y h2
      · intro h
        have hx : x = 0 := h x (List.mem_cons_self x xs)
        have hs : sumSq xs = 0 := ih.mpr (fun y hy => h y (List.mem_cons_of_mem x hy))
        rw [hx, hs]; ring

lemma sumSq_map_div (v : List ℚ) (c : ℚ) :
    sumSq (v.map (fun x => x / c)) = sumSq v / (c * c) := by
  induction v with
  | nil => simp [sumSq]
  | cons x xs ih =>
      rw [List.map_cons, sumSq_cons, sumSq_cons, ih, add_div, div_mul_div_comm]

/-- C5: `normalizeL2(v)` has Euclidean norm 1 (stated via the squared norm,
which is exact in the rational model), except the zero vector, which is
returned unchanged.  `sqrtFn` is assumed to be an exact square root at the
one point where the code applies it. -/
theorem normalizeL2_norm_one (sqrtFn : ℚ → ℚ) (vec : List ℚ)
    (hsqrt : sqrtFn (sumSq vec) * sqrtFn (sumSq vec) = sumSq vec) :
    (sumSq vec ≠ 0 → sumSq (normalizeL2 sqrtFn vec) = 1) ∧
    ((∀ x ∈ vec, x = 0) → normalizeL2 sqrtFn vec = vec) := by
  constructor
  · intro hnz
    have hnorm : sqrtFn (sumSq vec) ≠ 0 := by
      intro h0
      rw [h0, mul_zero] at hsqrt
      exact hnz hsqrt.symm
    rw [normalizeL2]
    simp only [hnorm, if_false]
    rw [sumSq_map_div, hsqrt]
    exact div_self hnz
  · intro hzero
    have h0 : sumSq vec = 0 := (sumSq_eq_zero_iff vec).mpr hzero
    have hnorm : sqrtFn (sumSq vec) = 0 := by
      rw [h0] at hsqrt ⊢
      exact mul_self_eq_zero.mp hsqrt
    rw [normalizeL2]
    simp [hnorm]

/-- Witness for C5 at the concrete vector `[3, 4]`. -/
theorem normalizeL2_norm_one_witness :
    sumSq (normalizeL2 (fun q => if q = 25 then 5 else 0) [3, 4]) = 1 :=
  (normalizeL2_norm_one (fun q => if q = 25 then 5 else 0) [3, 4]
    (by norm_num [sumSq])).1 (by norm_num [sumSq])

lemma dotProd_cons (x y : ℚ) (xs ys : List ℚ) :
    dotProd (x :: xs) (y :: ys) = x * y + dotProd xs ys := by
  simp [dotProd]

/-- Cauchy–Schwarz for the loop-computed dot product and sums of squares. -/
lemma dotProd_sq_le (a : List ℚ) : ∀ b : List ℚ,
    dotProd a b * dotProd a b ≤ sumSq a * sumSq b := by
  induction a with
  | nil =>
      intro b
      simp [dotProd, sumSq]
  | cons x xs ih =>
      intro b
      cases b with
      | nil =>
          simp [dotProd, sumSq]
      | cons y ys =>
          have hA := sumSq_nonneg xs
          have hB := sumSq_nonneg ys
          have hd := ih ys
          rw [dotProd_cons, sumSq_cons, sumSq_cons]
          rcases eq_or_lt_of_le hB with hB0 | hBpos
          · have hd0 : dotProd xs ys = 0 := by
              have h1 : dotProd xs ys * dotProd xs ys ≤ 0 := by
                calc dotProd xs ys * dotProd xs ys ≤ sumSq xs * sumSq ys := hd
                _ = 0 := by rw [← hB0, mul_zero]
              exact mul_self_eq_zero.mp
                (le_antisymm h1 (mul_self_nonneg (dotProd xs ys)))
            rw [hd0, ← hB0]
            nlinarith [mul_nonneg hA (sq_nonneg y)]
          · nlinarith [sq_nonneg (x * sumSq ys - y * dotProd xs ys),
              mul_nonneg (sq_nonneg y) (sub_nonneg.mpr hd),
              mul_nonneg hB (sub_nonneg.mpr hd)]

/-- C9 (amended): for equal-length vectors whose sums of squares are
nonzero, `cosineSim` returns a finite value in `[-1, 1]`.  (When either
vector is all-zero the code divides `0` by `0` and returns `NaN`; see the
counterexample.) -/
theorem cosineSim_in_unit_interval (sqrtFn : ℚ → ℚ) (a b : List ℚ)
    (hlen : a.length = b.length)
    (ha2 : sqrtFn (sumSq a) * sqrtFn (sumSq a) = sumSq a)
    (ha0 : 0 ≤ sqrtFn (sumSq a))
    (hb2 : sqrtFn (sumSq b) * sqrtFn (sumSq b) = sumSq b)
    (hb0 : 0 ≤ sqrtFn (sumSq b))
    (hna : sumSq a ≠ 0) (hnb : sumSq b ≠ 0) :
    ∃ q : ℚ, cosineSim sqrtFn a b = JNum.num q ∧ -1 ≤ q ∧ q ≤ 1 := by
  have hsa : 0 < sqrtFn (sumSq a) := by
    rcases lt_or_eq_of_le ha0 with h | h
    · exact h
    · exfalso; apply hna; rw [← ha2, ← h, mul_zero]
  have hsb : 0 < sqrtFn (sumSq b) := by
    rcases lt_or_eq_of_le hb0 with h | h
    · exact h
    · exfalso; apply hnb; rw [← hb2, ← h, mul_zero]
  set denom := sqrtFn (sumSq a) * sqrtFn (sumSq b) with hdenom
  have hdpos : 0 < denom := mul_pos hsa hsb
  have hd2 : denom * denom = sumSq a * sumSq b := by
    rw [hdenom, mul_mul_mul_comm, ha2, hb2]
  have hcs := dotProd_sq_le a b
  have hsq : dotProd a b ^ 2 ≤ denom ^ 2 := by
    rw [pow_two, pow_two, hd2]; exact hcs
  obtain ⟨hlb, hub⟩ := abs_le_of_sq_le_sq' hsq hdpos.le
  refine ⟨dotProd a b / denom, ?_, ?_, ?_⟩
  · rw [cosineSim, jdiv]
    simp only [hdpos.ne.symm, if_false]
  · rw [le_div_iff₀ hdpos]; linarith
  · rw [div_le_one hdpos]; exact hub

/-- Witness for the amended C9 at the concrete vectors `[1]` and `[1]`. -/
theorem cosineSim_in_unit_interval_witness :
    ∃ q : ℚ, cosineSim (fun q => if q = 1 then 1 else 0) [1] [1] = JNum.num q ∧
      -1 ≤ q ∧ q ≤ 1 :=
  cosineSim_in_unit_interval (fun q => if q = 1 then 1 else 0) [1] [1]
    rfl (by norm_num [sumSq]) (by norm_num [sumSq]) (by norm_num [sumSq])
    (by norm_num [sumSq]) (by norm_num [sumSq]) (by norm_num [sumSq])

/-- Counterexample to C9 as stated: for the pair of equal-length vectors
`[0]` and `[0]` the code computes `0 / (Math.sqrt(0) * Math.sqrt(0))`,
which is `NaN`, not a value in `[-1, 1]`. -/
theorem cosineSim_zero_vectors_nan :
    cosineSim (fun _ => 0) [0] [0] = JNum.nan ∧
    ¬ ∃ q : ℚ, cosineSim (fun _ => 0) [0] [0] = JNum.num q ∧ -1 ≤ q ∧ q ≤ 1 := by
  have h : cosineSim (fun _ => 0) [0] [0] = JNum.nan := by
    norm_num [cosineSim, dotProd, sumSq, jdiv]
  refine ⟨h, ?_⟩
  rintro ⟨q, hq, -, -⟩
  rw [h] at hq
  exact JNum.noConfusion hq

/-! ## Request validation in `queryLLM` (C1) -/

/-- A call to the `queryLLM` action: either a plain string passed directly,
or the CAP action request object whose `data.prompt` holds the query string
(`none` models an absent `prompt` field). -/
inductive Req where
  | direct (s : String)
  | action (prompt : Option String)
deriving DecidableEq, Repr

/-- The JavaScript value of `const query = req.data?.prompt || req`: the
prompt string when it is truthy, otherwise the request itself (the original
string for a direct call, or the request object for an action call). -/
inductive QueryVal where
  | str (s : String)
  | reqObject
deriving DecidableEq, Repr

def resolveQuery : Req → QueryVal
  | Req.direct s => QueryVal.str s
  | Req.action (some p) => if p = "" then QueryVal.reqObject else QueryVal.str p
  | Req.action none => QueryVal.reqObject

/-- JavaScript truthiness of the resolved query (`if (!query) ...`):
the empty string is falsy, every other string and any object is truthy. -/
def queryTruthy : QueryVal → Bool
  | QueryVal.str s => !(s == "")
  | QueryVal.reqObject => true

/-- Observable entry behaviour of `queryLLM`: whether the guard rejected
(with status and message) and how many vector-search calls were issued
(`runVectorSearch` is awaited first inside the `try` block, before any
generation call). -/
structure LLMEntry where
  rejected : Option (Nat × String)
  vectorSearchCalls : Nat
deriving DecidableEq, Repr

def queryLLMEntry (r : Req) : LLMEntry :=
  if queryTruthy (resolveQuery r) then
    { rejected := none, vectorSearchCalls := 1 }
  else
    { rejected := some (400, "query is required"), vectorSearchCalls := 0 }

/-- C1 (code bug): an action request carrying the empty query string is NOT
rejected — `req.data?.prompt || req` falls back to the (truthy) request
object, the guard does not fire, and the vector search runs; the same holds
when the `prompt` field is absent.  Only a directly passed empty string is
rejected with 400 and no external call, as the claim demands for all empty
queries. -/
theorem queryLLM_empty_prompt_proceeds :
    queryLLMEntry (Req.action (some "")) =
      { rejected := none, vectorSearchCalls := 1 } ∧
    queryLLMEntry (Req.action none) =
      { rejected := none, vectorSearchCalls := 1 } ∧
    queryLLMEntry (Req.direct "") =
      { rejected := some (400, "query is required"), vectorSearchCalls := 0 } := by
  refine ⟨?_, ?_, ?_⟩ <;> rfl

/-! ## Route geometry from OSRM (C7) -/

structure Coord where
  lat : ℚ
  lon : ℚ
deriving DecidableEq, Repr

/-- A route geometry payload (`data.routes[i].geometry`), opaque here. -/
structure Geometry where
  payload : String
deriving DecidableEq, Repr

/-- Outcome of the OSRM HTTP call inside `getRouteGeometry`: a parsed JSON
body carrying the list of routes (absent or empty `data.routes` is
modelled as `[]`), or a thrown transport/parse error (`catch` branch). -/
inductive RouteResp where
  | ok (routes : List Geometry)
  | err
deriving DecidableEq, Repr

/-- Model of `getRouteGeometry(coordinates)`: fewer than 2 coordinates returns
`null` before any engine call; otherwise the engine is called once and the
first route's geometry is returned, or `null` on empty routes or a thrown
error.  The second component counts calls to the routing engine. -/
def getRouteGeometry (engine : List Coord → RouteResp) (coordinates : List Coord) :
    Option Geometry × Nat :=
  if coordinates.length < 2 then (none, 0)
  else
    match engine coordinates with
    | RouteResp.ok (g :: _) => (some g, 1)
    | RouteResp.ok [] => (none, 1)
    | RouteResp.err => (none, 1)

/-- C7: with fewer than 2 waypoints `getRouteGeometry` returns null
geometry and performs no routing-engine call; with 2 or more it calls the
engine exactly once, and on a transport failure or an empty route set it
returns null geometry instead of raising an error. -/
theorem getRouteGeometry_spec (engine : List Coord → RouteResp)
    (coordinates : List Coord) :
    (coordinates.length < 2 → getRouteGeometry engine coordinates = (none, 0)) ∧
    (2 ≤ coordinates.length →
      (getRouteGeometry engine coordinates).2 = 1 ∧
      ((engine coordinates = RouteResp.err ∨ engine coordinates = RouteResp.ok []) →
        (getRouteGeometry engine coordinates).1 = none)) := by
  constructor
  · intro h
    rw [getRouteGeometry, if_pos h]
  · intro h
    have hnl : ¬ coordinates.length < 2 := not_lt.mpr h
    constructor
    · rw [getRouteGeometry, if_neg hnl]
      cases heng : engine coordinates with
      | ok routes => cases routes <;> rfl
      | err => rfl
    · intro herr
      rw [getRouteGeometry, if_neg hnl]
      rcases herr with h1 | h1 <;> rw [h1]

/-- Witness for C7 at one-point and two-point inputs with an engine that
returns no route. -/
theorem getRouteGeometry_spec_witness :
    getRouteGeometry (fun _ => RouteResp.ok []) [⟨0, 0⟩] = (none, 0) ∧
    (getRouteGeometry (fun _ => RouteResp.ok []) [⟨0, 0⟩, ⟨1, 1⟩]).2 = 1 ∧
    (getRouteGeometry (fun _ => RouteResp.ok []) [⟨0, 0⟩, ⟨1, 1⟩]).1 = none :=
  ⟨(getRouteGeometry_spec (fun _ => RouteResp.ok []) [⟨0, 0⟩]).1 (by decide),
    ((getRouteGeometry_spec (fun _ => RouteResp.ok []) [⟨0, 0⟩, ⟨1, 1⟩]).2
      (by decide)).1,
    ((getRouteGeometry_spec (fun _ => RouteResp.ok []) [⟨0, 0⟩, ⟨1, 1⟩]).2
      (by decide)).2 (Or.inr rfl)⟩

/-! ## Structured generation and the bounded repair loop (C3) -/

/-- One entry of `relevantAddresses` in the generation output schema. -/
structure RelevantAddress where
  addressId : String
  relevance : ℚ
deriving DecidableEq, Repr

/-- A schema-shaped generation result (all required fields present). -/
structure GenerationResult where
  answer : String
  confidence : ℚ
  relevantAddresses : List RelevantAddress
deriving DecidableEq, Repr

/-- Raw model output as seen by the structured parser: either text that
does not parse into the schema shape at all, or a schema-shaped record
whose numeric bounds still have to be checked. -/
inductive ModelOutput where
  | malformed
  | record (r : GenerationResult)
deriving DecidableEq, Repr

/-- The zod bound checks of `outputSchema`: `confidence` constrained by
`z.number().min(0).max(1)` and every `relevance` likewise. -/
def schemaBoundsOk (r : GenerationResult) : Bool :=
  decide (0 ≤ r.confidence) && decide (r.confidence ≤ 1) &&
    r.relevantAddresses.all
      (fun a => decide (0 ≤ a.relevance) && decide (a.relevance ≤ 1))

/-- Model of `StructuredOutputParser.fromZodSchema(outputSchema)`: accepts a
schema-shaped record whose bounds hold, rejects everything else. -/
def zodParse : ModelOutput → Option GenerationResult
  | ModelOutput.malformed => none
  | ModelOutput.record r => if schemaBoundsOk r then some r else none

/-- Modelled from the spec: the repair loop of `OutputFixingParser.fromLLM`
(langchain library code, not part of this repository's sources) — on
validation failure the invalid output and the validation error are sent
back to the model exactly once (`repaired` is that second model output),
and a second failure is fatal (the thrown error is caught by `queryLLM`
and surfaced as the 500 generation failure).  The first component counts
repair attempts; a `none` second component is the fatal generation error. -/
def outputFixingParse (first repaired : ModelOutput) :
    Nat × Option GenerationResult :=
  match zodParse first with
  | some r => (0, some r)
  | none =>
      match zodParse repaired with
      | some r => (1, some r)
      | none => (1, none)

lemma zodParse_some_bounds (o : ModelOutput) (r : GenerationResult)
    (h : zodParse o = some r) : schemaBoundsOk r = true := by
  cases o with
  | malformed => simp [zodParse] at h
  | record r0 =>
      rw [zodParse] at h
      by_cases hb : schemaBoundsOk r0
      · rw [if_pos hb] at h
        cases Option.some.inj h
        exact hb
      · rw [if_neg hb] at h
        exact absurd h (by simp)

/-- C3: an accepted generation result satisfies the `[0, 1]` bounds on
`confidence` and on every `relevance`; a record with `confidence = 3/2`
is rejected by the schema; an invalid first output triggers exactly one
repair attempt; and if the repaired output is also invalid the call fails
(generation error), still after exactly one repair attempt. -/
theorem generation_validation_spec (first repaired : ModelOutput) :
    (∀ r : GenerationResult, (outputFixingParse first repaired).2 = some r →
      0 ≤ r.confidence ∧ r.confidence ≤ 1 ∧
        ∀ a ∈ r.relevantAddresses, 0 ≤ a.relevance ∧ a.relevance ≤ 1) ∧
    (∀ r : GenerationResult, r.confidence = 3 / 2 →
      zodParse (ModelOutput.record r) = none) ∧
    (zodParse first = none → (outputFixingParse first repaired).1 = 1) ∧
    (zodParse first = none → zodParse repaired = none →
      outputFixingParse first repaired = (1, none)) := by
  refine ⟨?_, ?_, ?_, ?_⟩
  · intro r hr
    have hb : schemaBoundsOk r = true := by
      rw [outputFixingParse] at hr
      cases h1 : zodParse first with
      | some r1 =>
          rw [h1] at hr
          cases Option.some.inj hr
          exact zodParse_some_bounds first r h1
      | none =>
          rw [h1] at hr
          cases h2 : zodParse repaired with
          | some r2 =>
              rw [h2] at hr
              cases Option.some.inj hr
              exact zodParse_some_bounds repaired r h2
          | none =>
              rw [h2] at hr
              simp at hr
    rw [schemaBoundsOk, Bool.and_assoc] at hb
    have h1 := Bool.and_elim_left hb
    have h2 := Bool.and_elim_left (Bool.and_elim_right hb)
    have h3 := Bool.and_elim_right (Bool.and_elim_right hb)
    refine ⟨of_decide_eq_true h1, of_decide_eq_true h2, ?_⟩
    intro a ha
    have := List.all_eq_true.mp h3 a ha
    rw [Bool.and_eq_true] at this
    exact ⟨of_decide_eq_true this.1, of_decide_eq_true this.2⟩
  · intro r hc
    rw [zodParse]
    have : schemaBoundsOk r = false := by
      rw [schemaBoundsOk, hc]
      norm_num
    rw [this]
    simp
  · intro h1
    rw [outputFixingParse, h1]
    cases zodParse repaired <;> rfl
  · intro h1 h2
    rw [outputFixingParse, h1, h2]

/-- Witness for C3: a record with `confidence = 3/2` followed by a
malformed repair fails after exactly one repair attempt. -/
theorem generation_validation_spec_witness :
    outputFixingParse (ModelOutput.record ⟨"r", 3 / 2, []⟩) ModelOutput.malformed =
      (1, none) :=
  (generation_validation_spec (ModelOutput.record ⟨"r", 3 / 2, []⟩)
      ModelOutput.malformed).2.2.2
    ((generation_validation_spec (ModelOutput.record ⟨"r", 3 / 2, []⟩)
        ModelOutput.malformed).2.1 ⟨"r", 3 / 2, []⟩ rfl)
    rfl

/-! ## Geocoding and coordinate population (C2, C8) -/

/-- A client row as read by `populateCoordinates` (all rows whose
`Latitude` or `Longitude` is null). -/
structure Client where
  ID : Nat
  Address : String
  PostalCode : String
  City : String
  Country : String
deriving DecidableEq, Repr

/-- The display address built in the loop:
`Address, PostalCode City, Country`. -/
def fullAddress (c : Client) : String :=
  c.Address ++ ", " ++ c.PostalCode ++ " " ++ c.City ++ ", " ++ c.Country

/-- Outcome of the Nominatim HTTP call inside `geocodeAddress`: a parsed
JSON array of matches (each carrying the parsed `lat`/`lon` floats), or a
thrown transport/parse error (`catch` branch). -/
inductive GeoResp where
  | ok (data : List Coord)
  | err
deriving DecidableEq, Repr

/-- Model of `geocodeAddress(address)`: the first match's coordinates when
the result array is non-empty, `null` on an empty array, and `null` (after
logging) when the fetch throws. -/
def geocodeAddress (resp : GeoResp) : Option Coord :=
  match resp with
  | GeoResp.ok (d :: _) => some d
  | GeoResp.ok [] => none
  | GeoResp.err => none

/-- An entry of the `updated` result list (`{ id, address, lat, lon }`). -/
structure UpdatedEntry where
  id : Nat
  address : String
  lat : ℚ
  lon : ℚ
deriving DecidableEq, Repr

/-- An entry of the `failed` result list (`{ id, address }`). -/
structure FailedEntry where
  id : Nat
  address : String
deriving DecidableEq, Repr

/-- An external geocoding call, with the instant it is issued. -/
structure GeoCall where
  time : Nat
  address : String
deriving DecidableEq, Repr

/-- The `for (const client of clients)` loop of `populateCoordinates`:
sequentially geocode each client's display address, collect updated and
failed entries, and sleep 1 time unit after every iteration
(`await new Promise(resolve => setTimeout(resolve, 1000))`), regardless of
the call's outcome.  `net` is the geocoding service (a function of the
address), `spent addr` is the non-negative time consumed by the geocoding
call and the database write for that address, and `clock` is the current
instant.  Returns the issued calls (with timestamps) and the two lists. -/
def populateLoop (net : String → GeoResp) (spent : String → Nat) :
    Nat → List Client → List GeoCall × List UpdatedEntry × List FailedEntry
  | _, [] => ([], [], [])
  | clock, c :: rest =>
      let addr := fullAddress c
      let coords := geocodeAddress (net addr)
      let next := populateLoop net spent (clock + spent addr + 1) rest
      match coords with
      | some co =>
          (⟨clock, addr⟩ :: next.1,
            ⟨c.ID, addr, co.lat, co.lon⟩ :: next.2.1, next.2.2)
      | none =>
          (⟨clock, addr⟩ :: next.1, next.2.1, ⟨c.ID, addr⟩ :: next.2.2)

/-- Result of `populateCoordinates`: the early-return message when no
client lacks coordinates, or the processed message with the partition into
updated and failed lists.  The request is never rejected on geocoding
failures (the only `req.reject` is for a thrown database error, which is
outside this model). -/
inductive PopResult where
  | empty (message : String)
  | processed (message : String) (updated : List UpdatedEntry)
      (failed : List FailedEntry)
deriving DecidableEq, Repr

/-- Model of `populateCoordinates` (starting the clock at 0): also returns
the sequence of external geocoding calls for the rate-limit analysis. -/
def populateCoordinates (net : String → GeoResp) (spent : String → Nat)
    (clients : List Client) : PopResult × List GeoCall :=
  if clients.length = 0 then
    (PopResult.empty "All clients already have coordinates or no clients found.", [])
  else
    let r := populateLoop net spent 0 clients
    (PopResult.processed ("Processed " ++ toString clients.length ++ " clients.")
      r.2.1 r.2.2, r.1)

/-- Expected updated list: one entry per client whose geocoding succeeds. -/
def updatedOf (net : String → GeoResp) (clients : List Client) :
    List UpdatedEntry :=
  clients.filterMap (fun c =>
    (geocodeAddress (net (fullAddress c))).map
      (fun co => ⟨c.ID, fullAddress c, co.lat, co.lon⟩))

/-- Expected failed list: one entry per client whose geocoding fails. -/
def failedOf (net : String → GeoResp) (clients : List Client) :
    List FailedEntry :=
  clients.filterMap (fun c =>
    match geocodeAddress (net (fullAddress c)) with
    | some _ => none
    | none => some ⟨c.ID, fullAddress c⟩)

lemma populateLoop_lists (net : String → GeoResp) (spent : String → Nat) :
    ∀ (clients : List Client) (clock : Nat),
      (populateLoop net spent clock clients).2.1 = updatedOf net clients ∧
      (populateLoop net spent clock clients).2.2 = failedOf net clients := by
  intro clients
  induction clients with
  | nil => intro clock; exact ⟨rfl, rfl⟩
  | cons c rest ih =>
      intro clock
      obtain ⟨ih1, ih2⟩ := ih (clock + spent (fullAddress c) + 1)
      cases hg : geocodeAddress (net (fullAddress c)) with
      | some co =>
          simp only [populateLoop, hg]
          constructor
          · rw [updatedOf, List.filterMap_cons, hg]
            simp only [Option.map_some']
            rw [← updatedOf, ih1]
          · rw [failedOf, List.filterMap_cons, hg]
            rw [← failedOf, ih2]
      | none =>
          simp only [populateLoop, hg]
          constructor
          · rw [updatedOf, List.filterMap_cons, hg]
            simp only [Option.map_none']
            rw [← updatedOf, ih1]
          · rw [failedOf, List.filterMap_cons, hg]
            rw [← failedOf, ih2]

lemma mem_updatedOf (net : String → GeoResp) (clients : List Client)
    (c : Client) (hc : c ∈ clients) (co : Coord)
    (hg : geocodeAddress (net (fullAddress c)) = some co) :
    (⟨c.ID, fullAddress c, co.lat, co.lon⟩ : UpdatedEntry) ∈ updatedOf net clients :=
  List.mem_filterMap.mpr ⟨c, hc, by rw [hg]; rfl⟩

lemma mem_failedOf (net : String → GeoResp) (clients : List Client)
    (c : Client) (hc : c ∈ clients)
    (hg : geocodeAddress (net (fullAddress c)) = none) :
    (⟨c.ID, fullAddress c⟩ : FailedEntry) ∈ failedOf net clients :=
  List.mem_filterMap.mpr ⟨c, hc, by rw [hg]⟩

lemma not_mem_failedOf (net : String → GeoResp) (clients : List Client)
    (c : Client) (co : Coord)
    (hg : geocodeAddress (net (fullAddress c)) = some co) :
    (⟨c.ID, fullAddress c⟩ : FailedEntry) ∉ failedOf net clients := by
  intro hmem
  obtain ⟨c', _, he⟩ := List.mem_filterMap.mp hmem
  cases hg' : geocodeAddress (net (fullAddress c')) with
  | some _ =>
      rw [hg'] at he
      exact Option.noConfusion he
  | none =>
      rw [hg'] at he
      have haddr : fullAddress c' = fullAddress c :=
        (FailedEntry.mk.injEq _ _ _ _).mp (Option.some.inj he) |>.2
      rw [haddr] at hg'
      rw [hg'] at hg
      exact Option.noConfusion hg

lemma not_mem_updatedOf (net : String → GeoResp) (clients : List Client)
    (c : Client) (hg : geocodeAddress (net (fullAddress c)) = none) :
    ∀ e ∈ updatedOf net clients, ¬(e.id = c.ID ∧ e.address = fullAddress c) := by
  intro e hmem ⟨_, he2⟩
  obtain ⟨c', _, he⟩ := List.mem_filterMap.mp hmem
  cases hg' : geocodeAddress (net (fullAddress c')) with
  | some co' =>
      rw [hg'] at he
      simp only [Option.map_some'] at he
      have haddr : fullAddress c' = fullAddress c := by
        rw [← he2, ← Option.some.inj he]
      rw [haddr] at hg'
      rw [hg'] at hg
      exact Option.noConfusion hg
  | none =>
      rw [hg'] at he
      simp at he

/-- C8: for every geocoding-oracle behaviour and every non-empty batch,
`populateCoordinates` returns the normal processed result (never an error)
whose updated and failed lists are exactly the successfully and the
unsuccessfully geocoded clients, in batch order; consequently each input
entity is recorded in exactly one of the two lists, a failed geocoding
only moves the entity to the failed list while processing continues, and
the result is normal even when every entity fails. -/
theorem populateCoordinates_partition (net : String → GeoResp)
    (spent : String → Nat) (clients : List Client) (hne : clients ≠ []) :
    (populateCoordinates net spent clients).1 =
      PopResult.processed ("Processed " ++ toString clients.length ++ " clients.")
        (updatedOf net clients) (failedOf net clients) ∧
    ∀ c ∈ clients,
      (∀ co, geocodeAddress (net (fullAddress c)) = some co →
        (⟨c.ID, fullAddress c, co.lat, co.lon⟩ : UpdatedEntry) ∈
            updatedOf net clients ∧
          (⟨c.ID, fullAddress c⟩ : FailedEntry) ∉ failedOf net clients) ∧
      (geocodeAddress (net (fullAddress c)) = none →
        (⟨c.ID, fullAddress c⟩ : FailedEntry) ∈ failedOf net clients ∧
          ∀ e ∈ updatedOf net clients,
            ¬(e.id = c.ID ∧ e.address = fullAddress c)) := by
  have hlen0 : ¬ clients.length = 0 := by
    intro h
    exact hne (List.length_eq_zero.mp h)
  constructor
  · obtain ⟨h1, h2⟩ := populateLoop_lists net spent clients 0
    simp only [populateCoordinates, if_neg hlen0]
    rw [h1, h2]
  · intro c hc
    constructor
    · intro co hg
      exact ⟨mem_updatedOf net clients c hc co hg,
        not_mem_failedOf net clients c co hg⟩
    · intro hg
      exact ⟨mem_failedOf net clients c hc hg,
        not_mem_updatedOf net clients c hg⟩

/-- Witness for C8: a two-client batch where the first geocoding succeeds
and the second fails; the result is the normal processed partition. -/
theorem populateCoordinates_partition_witness :
    (populateCoordinates
        (fun a => if a = "A, 1 X, C" then GeoResp.ok [⟨1, 2⟩] else GeoResp.err)
        (fun _ => 0)
        [⟨7, "A", "1", "X", "C"⟩, ⟨8, "B", "2", "Y", "C"⟩]).1 =
      PopResult.processed "Processed 2 clients."
        [⟨7, "A, 1 X, C", 1, 2⟩] [⟨8, "B, 2 Y, C"⟩] :=
  (populateCoordinates_partition
      (fun a => if a = "A, 1 X, C" then GeoResp.ok [⟨1, 2⟩] else GeoResp.err)
      (fun _ => 0)
      [⟨7, "A", "1", "X", "C"⟩, ⟨8, "B", "2", "Y", "C"⟩]
      (by simp)).1

lemma populateLoop_calls_cons (net : String → GeoResp) (spent : String → Nat)
    (c : Client) (rest : List Client) (clock : Nat) :
    (populateLoop net spent clock (c :: rest)).1 =
      ⟨clock, fullAddress c⟩ ::
        (populateLoop net spent (clock + spent (fullAddress c) + 1) rest).1 := by
  cases hg : geocodeAddress (net (fullAddress c)) <;>
    simp only [populateLoop, hg]

lemma populateLoop_calls_length (net : String → GeoResp) (spent : String → Nat) :
    ∀ (clients : List Client) (clock : Nat),
      (populateLoop net spent clock clients).1.length = clients.length := by
  intro clients
  induction clients with
  | nil => intro clock; rfl
  | cons c rest ih =>
      intro clock
      rw [populateLoop_calls_cons, List.length_cons, ih, List.length_cons]

lemma populateLoop_calls_chain (net : String → GeoResp) (spent : String → Nat) :
    ∀ (clients : List Client) (clock : Nat),
      List.Chain' (fun a b => a.time + 1 ≤ b.time)
        (populateLoop net spent clock clients).1 := by
  intro clients
  induction clients with
  | nil => intro clock; exact List.chain'_nil
  | cons c rest ih =>
      intro clock
      rw [populateLoop_calls_cons]
      apply List.chain'_cons'.mpr
      refine ⟨?_, ih (clock + spent (fullAddress c) + 1)⟩
      intro g hg
      cases rest with
      | nil => simp [populateLoop] at hg
      | cons c2 rest2 =>
          rw [populateLoop_calls_cons] at hg
          rw [List.head?_cons] at hg
          cases Option.some.inj hg
          show clock + 1 ≤ clock + spent (fullAddress c) + 1
          omega

lemma chain_getLast_time (l : List GeoCall) :
    ∀ a : GeoCall, List.Chain' (fun x y => x.time + 1 ≤ y.time) (a :: l) →
      ∃ z, (a :: l).getLast? = some z ∧ a.time + l.length ≤ z.time := by
  induction l with
  | nil =>
      intro a _
      exact ⟨a, rfl, by simp⟩
  | cons b t ih =>
      intro a hchain
      obtain ⟨hab, hrest⟩ := List.chain'_cons.mp hchain
      obtain ⟨z, hz, hzt⟩ := ih b hrest
      refine ⟨z, ?_, ?_⟩
      · rw [List.getLast?_cons_cons]
        exact hz
      · simp only [List.length_cons]
        omega

/-- C2: for every geocoding-oracle behaviour, every per-call duration
assignment, and every non-empty batch, the geocoding calls of
`populateCoordinates` are issued strictly sequentially, each at least one
time unit after the previous one, so the last call starts at least N−1
units after the first. -/
theorem populateCoordinates_rate_limit (net : String → GeoResp)
    (spent : String → Nat) (clients : List Client) (hne : clients ≠ []) :
    (populateCoordinates net spent clients).2.length = clients.length ∧
    List.Chain' (fun a b => a.time + 1 ≤ b.time)
      (populateCoordinates net spent clients).2 ∧
    ∃ g0 gN, (populateCoordinates net spent clients).2.head? = some g0 ∧
      (populateCoordinates net spent clients).2.getLast? = some gN ∧
      g0.time + (clients.length - 1) ≤ gN.time := by
  have hlen0 : ¬ clients.length = 0 := by
    intro h
    exact hne (List.length_eq_zero.mp h)
  have hcalls : (populateCoordinates net spent clients).2 =
      (populateLoop net spent 0 clients).1 := by
    simp only [populateCoordinates, if_neg hlen0]
  cases clients with
  | nil => exact absurd rfl hne
  | cons c rest =>
      rw [hcalls, populateLoop_calls_cons]
      have hchain := populateLoop_calls_chain net spent (c :: rest) 0
      rw [populateLoop_calls_cons] at hchain
      obtain ⟨z, hz, hzt⟩ := chain_getLast_time _ _ hchain
      refine ⟨?_, hchain, ⟨0, fullAddress c⟩, z, rfl, hz, ?_⟩
      · rw [List.length_cons, populateLoop_calls_length, List.length_cons]
      · rw [populateLoop_calls_length] at hzt
        simp only [List.length_cons]
        omega

/-- Witness for C2: a concrete two-client batch whose geocoding always
fails; the second call still starts at least one unit after the first. -/
theorem populateCoordinates_rate_limit_witness :
    (populateCoordinates (fun _ => GeoResp.err) (fun _ => 0)
        [⟨1, "A", "1", "X", "C"⟩, ⟨2, "B", "2", "Y", "C"⟩]).2.length = 2 ∧
    List.Chain' (fun a b => a.time + 1 ≤ b.time)
      (populateCoordinates (fun _ => GeoResp.err) (fun _ => 0)
        [⟨1, "A", "1", "X", "C"⟩, ⟨2, "B", "2", "Y", "C"⟩]).2 ∧
    ∃ g0 gN,
      (populateCoordinates (fun _ => GeoResp.err) (fun _ => 0)
          [⟨1, "A", "1", "X", "C"⟩, ⟨2, "B", "2", "Y", "C"⟩]).2.head? = some g0 ∧
      (populateCoordinates (fun _ => GeoResp.err) (fun _ => 0)
          [⟨1, "A", "1", "X", "C"⟩, ⟨2, "B", "2", "Y", "C"⟩]).2.getLast? = some gN ∧
      g0.time + (2 - 1) ≤ gN.time :=
  populateCoordinates_rate_limit (fun _ => GeoResp.err) (fun _ => 0)
    [⟨1, "A", "1", "X", "C"⟩, ⟨2, "B", "2", "Y", "C"⟩] (by simp)

/-! ## Fallback deep-link URL (C4, C10) -/

/-- Hexadecimal digit character (uppercase), for percent-encoding. -/
def hexDigit (n : Nat) : Char :=
  if n < 10 then Char.ofNat (48 + n) else Char.ofNat (55 + n)

/-- UTF-8 bytes of a code point, for percent-encoding. -/
def utf8Bytes (n : Nat) : List Nat :=
  if n < 128 then [n]
  else if n < 2048 then [192 + n / 64, 128 + n % 64]
  else if n < 65536 then [224 + n / 4096, 128 + n / 64 % 64, 128 + n % 64]
  else [240 + n / 262144, 128 + n / 4096 % 64, 128 + n / 64 % 64, 128 + n % 64]

/-- Characters that `encodeURIComponent` leaves unescaped: ASCII letters,
digits, and the nine marks (hyphen, underscore, dot, bang, tilde, star,
apostrophe, parentheses), by code point. -/
def isUriUnreserved (c : Char) : Bool :=
  (65 ≤ c.toNat && c.toNat ≤ 90) || (97 ≤ c.toNat && c.toNat ≤ 122) ||
    (48 ≤ c.toNat && c.toNat ≤ 57) ||
    c.toNat == 45 || c.toNat == 95 || c.toNat == 46 || c.toNat == 33 ||
    c.toNat == 126 || c.toNat == 42 || c.toNat == 39 || c.toNat == 40 ||
    c.toNat == 41

/-- Percent-encoding of one byte, e.g. `%2C`. -/
def pctByte (b : Nat) : String :=
  String.mk ['%', hexDigit (b / 16), hexDigit (b % 16)]

def pctBytes : List Nat → String
  | [] => ""
  | b :: bs => pctByte b ++ pctBytes bs

/-- Percent-encoding of one character. -/
def encChar (c : Char) : String :=
  if isUriUnreserved c then String.singleton c
  else pctBytes (utf8Bytes c.toNat)

def encodeURIComponentList : List Char → String
  | [] => ""
  | c :: cs => encChar c ++ encodeURIComponentList cs

/-- Model of JavaScript's `encodeURIComponent`. -/
def encodeURIComponent (s : String) : String :=
  encodeURIComponentList s.data

/-- A resolved waypoint of the response (an entry of `validAddresses`):
only addresses with both coordinates reach this list. -/
structure ValidAddress where
  id : Nat
  companyName : String
  address : String
  lat : ℚ
  lon : ℚ
deriving DecidableEq, Repr

/-- Model of `Array.prototype.join` with the pipe separator. -/
def joinBar : List String → String
  | [] => ""
  | [x] => x
  | x :: xs => x ++ "|" ++ joinBar xs

/-- Model of the Google-Maps fallback URL construction in `queryLLM`:
origin is the first entry, destination the last,
`slice(1, -1)` in order as intermediate waypoints (the parameter is added
only when the joined string is truthy), and the fixed
`&travelmode=driving` suffix; the empty string when no valid address
exists. -/
def buildMapsUrl (validAddresses : List ValidAddress) : String :=
  if 0 < validAddresses.length then
    let addrs := validAddresses.map (fun a => a.address)
    let origin := encodeURIComponent (addrs.headD "")
    let destination := encodeURIComponent (addrs.getLastD "")
    let waypoints := joinBar (((addrs.drop 1).dropLast).map encodeURIComponent)
    let url := "https://www.google.com/maps/dir/?api=1&origin=" ++ origin ++
      "&destination=" ++ destination
    let url2 := if waypoints = "" then url else url ++ "&waypoints=" ++ waypoints
    url2 ++ "&travelmode=driving"
  else ""

/-- Model of the `mapsUrl` field of the response:
`mapsUrl || 'No valid addresses found for mapping'`. -/
def mapsUrlField (validAddresses : List ValidAddress) : String :=
  if buildMapsUrl validAddresses = "" then "No valid addresses found for mapping"
  else buildMapsUrl validAddresses

/-- Map-related part of the `queryLLM` response: the fallback URL field
and the (possibly null) route geometry, assembled independently of each
other. -/
structure MapResponse where
  mapsUrl : String
  routeGeometry : Option Geometry
deriving DecidableEq, Repr

def assembleMapResponse (validAddresses : List ValidAddress)
    (routeGeometry : Option Geometry) : MapResponse :=
  ⟨mapsUrlField validAddresses, routeGeometry⟩

/-- Reference definition following the spec's words: a deep-link URL built
from the first resolved waypoint as origin, the last as destination, and
all interior waypoints in order as intermediate stops, with the fixed
driving travel-mode parameter. -/
def specFallbackUrl : List String → String
  | [] => ""
  | a :: rest =>
      "https://www.google.com/maps/dir/?api=1&origin=" ++
        encodeURIComponent a ++ "&destination=" ++
        encodeURIComponent ((a :: rest).getLastD "") ++
        (if rest.dropLast = [] then ""
          else "&waypoints=" ++ joinBar (rest.dropLast.map encodeURIComponent)) ++
        "&travelmode=driving"

lemma append_ne_empty_left (s t : String) (hs : s ≠ "") : s ++ t ≠ "" := by
  intro h
  apply hs
  have hd : s.data ++ t.data = ([] : List Char) := by
    have := congrArg String.data h
    simpa using this
  have hs0 : s.data = [] := (List.append_eq_nil.mp hd).1
  exact String.ext (by rw [hs0])

lemma pctByte_ne_empty (b : Nat) : pctByte b ≠ "" := by
  intro h
  have := congrArg String.length h
  simp [pctByte, String.length] at this

lemma utf8Bytes_ne_nil (n : Nat) : utf8Bytes n ≠ [] := by
  rw [utf8Bytes]
  split
  · simp
  · split
    · simp
    · split <;> simp

lemma encChar_ne_empty (c : Char) : encChar c ≠ "" := by
  rw [encChar]
  split
  · intro h
    have := congrArg String.length h
    simp [String.singleton, String.length] at this
  · cases hb : utf8Bytes c.toNat with
    | nil => exact absurd hb (utf8Bytes_ne_nil _)
    | cons b bs =>
        rw [pctBytes]
        exact append_ne_empty_left _ _ (pctByte_ne_empty b)

lemma encodeURIComponent_ne_empty (s : String) (hs : s ≠ "") :
    encodeURIComponent s ≠ "" := by
  rw [encodeURIComponent]
  cases hd : s.data with
  | nil =>
      exact absurd (String.ext (by rw [hd])) hs
  | cons c cs =>
      rw [encodeURIComponentList]
      exact append_ne_empty_left _ _ (encChar_ne_empty c)

lemma joinBar_map_enc_ne_empty (l : List String) (hne : l ≠ [])
    (hall : ∀ x ∈ l, x ≠ "") : joinBar (l.map encodeURIComponent) ≠ "" := by
  cases l with
  | nil => exact absurd rfl hne
  | cons x xs =>
      cases xs with
      | nil =>
          simp only [List.map_cons, List.map_nil, joinBar]
          exact encodeURIComponent_ne_empty x (hall x (List.mem_cons_self x []))
      | cons y ys =>
          simp only [List.map_cons, joinBar]
          exact append_ne_empty_left _ _
            (append_ne_empty_left _ _
              (encodeURIComponent_ne_empty x (hall x (List.mem_cons_self x _))))

lemma buildMapsUrl_eq_spec (validAddresses : List ValidAddress)
    (hne : validAddresses ≠ [])
    (haddr : ∀ a ∈ validAddresses, a.address ≠ "") :
    buildMapsUrl validAddresses =
      specFallbackUrl (validAddresses.map (fun a => a.address)) := by
  cases validAddresses with
  | nil => exact absurd rfl hne
  | cons v vs =>
      rw [buildMapsUrl]
      have hpos : 0 < (v :: vs).length := by simp
      rw [if_pos hpos]
      simp only [List.map_cons, List.headD_cons, List.drop_succ_cons,
        List.drop_zero, specFallbackUrl]
      by_cases hint : (vs.map (fun a => a.address)).dropLast = []
      · rw [hint]
        simp only [List.map_nil, joinBar, if_true, String.append_empty]
      · have hjoin : joinBar (((vs.map (fun a => a.address)).dropLast).map
            encodeURIComponent) ≠ "" := by
          apply joinBar_map_enc_ne_empty _ hint
          intro x hx
          have hx2 : x ∈ vs.map (fun a => a.address) :=
            List.dropLast_subset _ hx
          obtain ⟨a, ha, rfl⟩ := List.mem_map.mp hx2
          exact haddr a (List.mem_cons_of_mem v ha)
        rw [if_neg hjoin, if_neg hint]
        congr 1
        exact String.append_assoc _ _ _

/-- C4 (amended): for every pipeline response with at least one resolved
waypoint (each with a non-empty display address, as built by the code),
the `mapsUrl` field equals the deep-link URL built from the first waypoint
as origin, the last as destination, and the interior waypoints in order,
with the fixed driving travel mode — independently of the route-geometry
outcome.  With no resolved waypoint the field is a fixed message instead
(see the counterexample). -/
theorem fallback_url_always_derived (validAddresses : List ValidAddress)
    (routeGeometry : Option Geometry)
    (hne : validAddresses ≠ [])
    (haddr : ∀ a ∈ validAddresses, a.address ≠ "") :
    (assembleMapResponse validAddresses routeGeometry).mapsUrl =
      specFallbackUrl (validAddresses.map (fun a => a.address)) := by
  have heq := buildMapsUrl_eq_spec validAddresses hne haddr
  have hnz : buildMapsUrl validAddresses ≠ "" := by
    rw [heq]
    cases validAddresses with
    | nil => exact absurd rfl hne
    | cons v vs =>
        rw [List.map_cons, specFallbackUrl]
        exact append_ne_empty_left _ _ (append_ne_empty_left _ _
          (append_ne_empty_left _ _ (append_ne_empty_left _ _
            (append_ne_empty_left _ _ (by decide)))))
  show mapsUrlField validAddresses = _
  rw [mapsUrlField, if_neg hnz, heq]

/-- Witness for C4 at three concrete waypoints and a failed geometry. -/
theorem fallback_url_always_derived_witness :
    (assembleMapResponse
        ([⟨1, "c1", "X", 0, 0⟩, ⟨2, "c2", "Y", 1, 1⟩, ⟨3, "c3", "Z", 2, 2⟩] :
          List ValidAddress)
        none).mapsUrl =
      specFallbackUrl (List.map (fun a => a.address)
        ([⟨1, "c1", "X", 0, 0⟩, ⟨2, "c2", "Y", 1, 1⟩, ⟨3, "c3", "Z", 2, 2⟩] :
          List ValidAddress)) :=
  fallback_url_always_derived
    ([⟨1, "c1", "X", 0, 0⟩, ⟨2, "c2", "Y", 1, 1⟩, ⟨3, "c3", "Z", 2, 2⟩] :
      List ValidAddress)
    none (by simp) (by decide)

/-- Counterexample to C4 as stated: with no resolved waypoint the
`mapsUrl` field of the response is the fixed message, which is not a
deep-link URL (it does not extend the Google-Maps directions base). -/
theorem fallback_url_empty_not_url :
    (assembleMapResponse [] none).mapsUrl = "No valid addresses found for mapping" ∧
    ¬ ∃ rest : List Char, (assembleMapResponse [] none).mapsUrl.data =
      ("https://www.google.com/maps/dir/?api=1&origin=" : String).data ++ rest := by
  have hmsg : (assembleMapResponse [] none).mapsUrl =
      "No valid addresses found for mapping" := rfl
  refine ⟨hmsg, ?_⟩
  rintro ⟨rest, hrest⟩
  rw [hmsg] at hrest
  have hlen := congrArg List.length hrest
  rw [List.length_append] at hlen
  have h1 : ("No valid addresses found for mapping" : String).data.length = 36 := by
    decide
  have h2 : ("https://www.google.com/maps/dir/?api=1&origin=" : String).data.length =
      46 := by decide
  rw [h1, h2] at hlen
  omega

/-- C10: with exactly one resolved waypoint the fallback URL uses that
single address as both origin and destination and carries no
intermediate-waypoints parameter; with no resolved waypoint the `mapsUrl`
field is the fixed no-addresses message. -/
theorem mapsUrl_singleton_and_empty (a : ValidAddress) :
    mapsUrlField [a] =
      "https://www.google.com/maps/dir/?api=1&origin=" ++
        encodeURIComponent a.address ++ "&destination=" ++
        encodeURIComponent a.address ++ "&travelmode=driving" ∧
    mapsUrlField [] = "No valid addresses found for mapping" := by
  constructor
  · have hb : buildMapsUrl [a] =
        "https://www.google.com/maps/dir/?api=1&origin=" ++
          encodeURIComponent a.address ++ "&destination=" ++
          encodeURIComponent a.address ++ "&travelmode=driving" := by
      rw [buildMapsUrl]
      have hpos : 0 < ([a] : List ValidAddress).length := by simp
      rw [if_pos hpos]
      simp only [List.map_cons, List.map_nil, List.headD_cons,
        List.getLastD_cons, List.getLastD_nil, List.drop_succ_cons, List.drop_zero,
        List.dropLast_nil, List.dropLast_single, joinBar, if_true]
    have hnz : ("https://www.google.com/maps/dir/?api=1&origin=" ++
        encodeURIComponent a.address ++ "&destination=" ++
        encodeURIComponent a.address ++ "&travelmode=driving" : String) ≠ "" :=
      append_ne_empty_left _ _ (append_ne_empty_left _ _
        (append_ne_empty_left _ _ (append_ne_empty_left _ _ (by decide))))
    rw [mapsUrlField, hb, if_neg hnz]
  · rfl

/-! ## Application-side similarity ranking (C6) -/

/-- A stored address row as scanned by `onFindClosest`.  `emb` holds the
result of `parseEmbedding(a.EMBEDDING)`: `none` models a missing or
unparseable stored embedding, `some e` a parsed numeric vector. -/
structure Address where
  id : Nat
  emb : Option (List ℚ)
deriving DecidableEq, Repr

/-- Validity test implicit in the loop guard
`if (!dbEmb || dbEmb.length !== userEmbedding.length) continue`. -/
def validCand (user : List ℚ) (a : Address) : Bool :=
  match a.emb with
  | none => false
  | some e => decide (e.length = user.length)

/-- One iteration of the scan loop of `onFindClosest`: skip when the
parsed embedding is missing or of a different dimension than the query
vector; otherwise keep the candidate exactly when its similarity strictly
exceeds the running best (`similarity > bestScore`). -/
def scanStep (sqrtFn : ℚ → ℚ) (user : List ℚ)
    (st : Option Address × JNum) (a : Address) : Option Address × JNum :=
  match a.emb with
  | none => st
  | some e =>
      if e.length ≠ user.length then st
      else
        let similarity := cosineSim sqrtFn user e
        if jgt similarity st.2 then (some a, similarity) else st

/-- Model of the scan of `onFindClosest` (the query embedding `user` has
already been produced, truncated to 768 entries and normalized): fold over
all rows starting from `best = null`, `bestScore = -Infinity`, and return
`best`. -/
def onFindClosest (sqrtFn : ℚ → ℚ) (user : List ℚ) (addrs : List Address) :
    Option Address :=
  (addrs.foldl (scanStep sqrtFn user) (none, JNum.negInf)).1

/-- Rational value of the cosine similarity of a candidate, defined when
no division by zero occurs. -/
def simQ (sqrtFn : ℚ → ℚ) (user : List ℚ) (a : Address) : ℚ :=
  dotProd user (a.emb.getD []) /
    (sqrtFn (sumSq user) * sqrtFn (sumSq (a.emb.getD [])))

/-- Reference fold over exact rationals with `-Infinity` as `⊥`. -/
def scanStepQ (f : Address → ℚ) (st : Option Address × WithBot ℚ)
    (a : Address) : Option Address × WithBot ℚ :=
  if st.2 < (f a : WithBot ℚ) then (some a, (f a : WithBot ℚ)) else st

def toJ (s : WithBot ℚ) : JNum :=
  s.recBotCoe JNum.negInf (fun q => JNum.num q)

lemma toJ_bot : toJ ⊥ = JNum.negInf := rfl

lemma toJ_coe (q : ℚ) : toJ (q : WithBot ℚ) = JNum.num q := rfl

lemma jgt_num_toJ (q : ℚ) (s : WithBot ℚ) :
    jgt (JNum.num q) (toJ s) = decide (s < (q : WithBot ℚ)) := by
  induction s using WithBot.recBotCoe with
  | bot =>
      rw [toJ_bot]
      have h1 : jgt (JNum.num q) JNum.negInf = true := rfl
      have h2 : decide ((⊥ : WithBot ℚ) < (q : WithBot ℚ)) = true :=
        decide_eq_true_eq.mpr (WithBot.bot_lt_coe q)
      rw [h1, h2]
  | coe s0 =>
      rw [toJ_coe]
      show decide (s0 < q) = decide ((s0 : WithBot ℚ) < (q : WithBot ℚ))
      rcases Decidable.em (s0 < q) with h | h
      · rw [decide_eq_true_eq.mpr h,
          decide_eq_true_eq.mpr (WithBot.coe_lt_coe.mpr h)]
      · rw [decide_eq_false (by exact h),
          decide_eq_false (fun hc => h (WithBot.coe_lt_coe.mp hc))]

lemma scanStep_invalid (sqrtFn : ℚ → ℚ) (user : List ℚ) (a : Address)
    (hv : validCand user a = false) (st : Option Address × JNum) :
    scanStep sqrtFn user st a = st := by
  rw [validCand] at hv
  cases he : a.emb with
  | none => simp only [scanStep, he]
  | some e =>
      rw [he] at hv
      have hne : e.length ≠ user.length := of_decide_eq_false hv
      simp only [scanStep, he, if_pos hne]

lemma fold_scanStep_filter (sqrtFn : ℚ → ℚ) (user : List ℚ) :
    ∀ (l : List Address) (st : Option Address × JNum),
      l.foldl (scanStep sqrtFn user) st =
        (l.filter (validCand user)).foldl (scanStep sqrtFn user) st := by
  intro l
  induction l with
  | nil => intro st; rfl
  | cons a t ih =>
      intro st
      rw [List.foldl_cons, List.filter_cons]
      cases hv : validCand user a with
      | true =>
          rw [if_pos rfl, List.foldl_cons]
          exact ih _
      | false =>
          rw [if_neg (by simp), scanStep_invalid sqrtFn user a hv st]
          exact ih st

lemma fold_scanStep_toJ (sqrtFn : ℚ → ℚ) (user : List ℚ) :
    ∀ (l : List Address),
      (∀ a ∈ l, validCand user a = true) →
      (∀ a ∈ l, ∀ e, a.emb = some e →
        cosineSim sqrtFn user e = JNum.num (simQ sqrtFn user a)) →
      ∀ (b : Option Address) (s : WithBot ℚ),
        l.foldl (scanStep sqrtFn user) (b, toJ s) =
          ((l.foldl (scanStepQ (simQ sqrtFn user)) (b, s)).1,
            toJ (l.foldl (scanStepQ (simQ sqrtFn user)) (b, s)).2) := by
  intro l
  induction l with
  | nil => intro _ _ b s; rfl
  | cons a t ih =>
      intro hval hnum b s
      have hva : validCand user a = true := hval a (List.mem_cons_self a t)
      rw [validCand] at hva
      cases he : a.emb with
      | none => rw [he] at hva; exact absurd hva (by simp)
      | some e =>
          rw [he] at hva
          have hlen : e.length = user.length := of_decide_eq_true hva
          have hsim : cosineSim sqrtFn user e = JNum.num (simQ sqrtFn user a) :=
            hnum a (List.mem_cons_self a t) e he
          rw [List.foldl_cons, List.foldl_cons]
          have hstep : scanStep sqrtFn user (b, toJ s) a =
              ((scanStepQ (simQ sqrtFn user) (b, s) a).1,
                toJ (scanStepQ (simQ sqrtFn user) (b, s) a).2) := by
            by_cases h : s < (simQ sqrtFn user a : WithBot ℚ)
            · have hd : jgt (JNum.num (simQ sqrtFn user a)) (toJ s) = true := by
                rw [jgt_num_toJ]
                exact decide_eq_true_eq.mpr h
              simp only [scanStep, he,
                if_neg (show ¬ e.length ≠ user.length from by simp [hlen]),
                hsim, hd, if_true, scanStepQ, if_pos h, toJ_coe]
            · have hd : jgt (JNum.num (simQ sqrtFn user a)) (toJ s) = false := by
                rw [jgt_num_toJ]
                exact decide_eq_false h
              simp only [scanStep, he,
                if_neg (show ¬ e.length ≠ user.length from by simp [hlen]),
                hsim, hd, Bool.false_eq_true, if_false, scanStepQ, if_neg h]
          rw [hstep]
          exact ih (fun x hx => hval x (List.mem_cons_of_mem a hx))
            (fun x hx => hnum x (List.mem_cons_of_mem a hx))
            (scanStepQ (simQ sqrtFn user) (b, s) a).1
            (scanStepQ (simQ sqrtFn user) (b, s) a).2

lemma scanQ_spec (f : Address → ℚ) :
    ∀ (l : List Address) (b : Option Address) (s : WithBot ℚ),
      (l.foldl (scanStepQ f) (b, s) = (b, s) ∧
        ∀ a ∈ l, ¬ (s < (f a : WithBot ℚ))) ∨
      (∃ l1 c l2, l = l1 ++ c :: l2 ∧
        l.foldl (scanStepQ f) (b, s) = (some c, (f c : WithBot ℚ)) ∧
        s < (f c : WithBot ℚ) ∧
        (∀ a ∈ l1, f a < f c) ∧
        (∀ a ∈ l2, f a ≤ f c)) := by
  intro l
  induction l with
  | nil => intro b s; exact Or.inl ⟨rfl, by simp⟩
  | cons a t ih =>
      intro b s
      rw [List.foldl_cons]
      by_cases h : s < (f a : WithBot ℚ)
      · rw [show scanStepQ f (b, s) a = (some a, (f a : WithBot ℚ)) from by
          rw [scanStepQ, if_pos h]]
        rcases ih (some a) ((f a : WithBot ℚ)) with ⟨heq, hub⟩ |
          ⟨l1, c, l2, hl, hfold, hgt, h1, h2⟩
        · right
          refine ⟨[], a, t, rfl, ?_, h, by simp, ?_⟩
          · rw [heq]
          · intro x hx
            have hx2 := hub x hx
            rw [WithBot.coe_lt_coe] at hx2
            exact not_lt.mp hx2
        · right
          have hac : f a < f c := WithBot.coe_lt_coe.mp hgt
          refine ⟨a :: l1, c, l2, by rw [hl, List.cons_append], hfold, lt_trans h hgt, ?_, h2⟩
          intro x hx
          rcases List.mem_cons.mp hx with rfl | hx2
          · exact hac
          · exact h1 x hx2
      · rw [show scanStepQ f (b, s) a = (b, s) from by rw [scanStepQ, if_neg h]]
        rcases ih b s with ⟨heq, hub⟩ | ⟨l1, c, l2, hl, hfold, hgt, h1, h2⟩
        · left
          refine ⟨heq, ?_⟩
          intro x hx
          rcases List.mem_cons.mp hx with rfl | hx2
          · exact h
          · exact hub x hx2
        · right
          refine ⟨a :: l1, c, l2, by rw [hl, List.cons_append], hfold, hgt, ?_, h2⟩
          intro x hx
          rcases List.mem_cons.mp hx with rfl | hx2
          · have h3 : ((f x : WithBot ℚ)) ≤ s := not_lt.mp h
            exact WithBot.coe_lt_coe.mp (lt_of_le_of_lt h3 hgt)
          · exact h1 x hx2

lemma cosineSim_num_of (sqrtFn : ℚ → ℚ) (user : List ℚ) (a : Address)
    (e : List ℚ) (he : a.emb = some e)
    (hsqrt : ∀ q : ℚ, 0 < q → 0 < sqrtFn q)
    (huser : sumSq user ≠ 0) (hze : sumSq e ≠ 0) :
    cosineSim sqrtFn user e = JNum.num (simQ sqrtFn user a) := by
  have h1 : 0 < sumSq user := lt_of_le_of_ne (sumSq_nonneg user) (Ne.symm huser)
  have h2 : 0 < sumSq e := lt_of_le_of_ne (sumSq_nonneg e) (Ne.symm hze)
  have h5 : sqrtFn (sumSq user) * sqrtFn (sumSq e) ≠ 0 :=
    (mul_pos (hsqrt _ h1) (hsqrt _ h2)).ne.symm
  simp only [cosineSim, jdiv, if_neg h5, simQ, he, Option.getD_some]

/-- C6: under the domain assumptions that the query vector and every
parsed candidate embedding have nonzero sum of squares (so every computed
cosine similarity is a finite number) and that the square-root model is
positive on positive inputs, the scan of `onFindClosest` skips every
candidate with a missing/unparseable embedding or a dimension mismatch
without error (the result is `null` exactly when no candidate survives the
guard), and otherwise returns a surviving candidate whose similarity is
maximal, the earliest in scan order among the maximal ones: every valid
candidate before it scores strictly less, every one after scores no more. -/
theorem onFindClosest_spec (sqrtFn : ℚ → ℚ) (user : List ℚ)
    (addrs : List Address)
    (hsqrt : ∀ q : ℚ, 0 < q → 0 < sqrtFn q)
    (huser : sumSq user ≠ 0)
    (hemb : ∀ a ∈ addrs, ∀ e, a.emb = some e → sumSq e ≠ 0) :
    (onFindClosest sqrtFn user addrs = none ↔
      addrs.filter (validCand user) = []) ∧
    ∀ c, onFindClosest sqrtFn user addrs = some c →
      validCand user c = true ∧
      (∀ a ∈ addrs, validCand user a = true →
        simQ sqrtFn user a ≤ simQ sqrtFn user c) ∧
      ∃ l1 l2, addrs.filter (validCand user) = l1 ++ c :: l2 ∧
        (∀ a ∈ l1, simQ sqrtFn user a < simQ sqrtFn user c) ∧
        (∀ a ∈ l2, simQ sqrtFn user a ≤ simQ sqrtFn user c) := by
  have hvalF : ∀ a ∈ addrs.filter (validCand user), validCand user a = true :=
    fun a ha => (List.mem_filter.mp ha).2
  have hnumF : ∀ a ∈ addrs.filter (validCand user), ∀ e, a.emb = some e →
      cosineSim sqrtFn user e = JNum.num (simQ sqrtFn user a) := by
    intro a ha e he
    exact cosineSim_num_of sqrtFn user a e he hsqrt huser
      (hemb a (List.mem_filter.mp ha).1 e he)
  have hfold : onFindClosest sqrtFn user addrs =
      ((addrs.filter (validCand user)).foldl
        (scanStepQ (simQ sqrtFn user)) (none, ⊥)).1 := by
    rw [onFindClosest, fold_scanStep_filter]
    have h := fold_scanStep_toJ sqrtFn user (addrs.filter (validCand user))
      hvalF hnumF none ⊥
    rw [toJ_bot] at h
    rw [h]
  rcases scanQ_spec (simQ sqrtFn user) (addrs.filter (validCand user)) none ⊥
    with ⟨heq, hub⟩ | ⟨l1, c, l2, hl, hfq, _, h1, h2⟩
  · have hFnil : addrs.filter (validCand user) = [] := by
      cases hFc : addrs.filter (validCand user) with
      | nil => rfl
      | cons x xs =>
          exfalso
          apply hub x (by rw [hFc]; exact List.mem_cons_self x xs)
          exact WithBot.bot_lt_coe _
    constructor
    · constructor
      · intro _; exact hFnil
      · intro _; rw [hfold, heq]
    · intro c hc
      rw [hfold, heq] at hc
      exact absurd hc (by simp)
  · have hres : onFindClosest sqrtFn user addrs = some c := by rw [hfold, hfq]
    constructor
    · constructor
      · intro h0
        rw [hres] at h0
        exact absurd h0 (by simp)
      · intro hFnil
        rw [hFnil] at hl
        exact absurd hl (by simp)
    · intro c' hc'
      rw [hres] at hc'
      cases Option.some.inj hc'
      have hcF : c ∈ addrs.filter (validCand user) := by
        rw [hl]
        exact List.mem_append_right _ (List.mem_cons_self c l2)
      refine ⟨hvalF c hcF, ?_, l1, l2, hl, h1, h2⟩
      intro a ha hav
      have haF : a ∈ addrs.filter (validCand user) :=
        List.mem_filter.mpr ⟨ha, hav⟩
      rw [hl] at haF
      rcases List.mem_append.mp haF with hmem | hmem
      · exact le_of_lt (h1 a hmem)
      · rcases List.mem_cons.mp hmem with rfl | hmem2
        · exact le_refl _
        · exact h2 a hmem2

/-- Witness for C6: a two-row store where the second row has no stored
embedding; the theorem applies with the identity square-root model. -/
theorem onFindClosest_spec_witness :
    (onFindClosest (fun q => q) [1]
        ([⟨1, some [2]⟩, ⟨2, none⟩] : List Address) = none ↔
      ([⟨1, some [2]⟩, ⟨2, none⟩] : List Address).filter (validCand [1]) = []) ∧
    ∀ c, onFindClosest (fun q => q) [1]
        ([⟨1, some [2]⟩, ⟨2, none⟩] : List Address) = some c →
      validCand [1] c = true ∧
      (∀ a ∈ ([⟨1, some [2]⟩, ⟨2, none⟩] : List Address),
        validCand [1] a = true →
          simQ (fun q => q) [1] a ≤ simQ (fun q => q) [1] c) ∧
      ∃ l1 l2,
        ([⟨1, some [2]⟩, ⟨2, none⟩] : List Address).filter (validCand [1]) =
            l1 ++ c :: l2 ∧
          (∀ a ∈ l1, simQ (fun q => q) [1] a < simQ (fun q => q) [1] c) ∧
          (∀ a ∈ l2, simQ (fun q => q) [1] a ≤ simQ (fun q => q) [1] c) :=
  onFindClosest_spec (fun q => q) [1] ([⟨1, some [2]⟩, ⟨2, none⟩] : List Address)
    (fun _ h => h) (by norm_num [sumSq])
    (by
      intro a ha e he
      rcases List.mem_cons.mp ha with rfl | ha2
      · cases Option.some.inj he
        norm_num [sumSq]
      · rcases List.mem_cons.mp ha2 with rfl | ha3
        · exact absurd he (by simp)
        · simp at ha3)

/-! ## Coordinate resolution inside `queryLLM` (C2) -/

/-- A client row as fetched for the addresses referenced by the
generation result (`SELECT ID, CompanyName, Address, PostalCode, City,
Country, Latitude, Longitude ... WHERE ID IN (...)`). -/
structure ClientRow where
  ID : Nat
  CompanyName : String
  Address : String
  PostalCode : String
  City : String
  Country : String
  Latitude : Option ℚ
  Longitude : Option ℚ
deriving DecidableEq, Repr

/-- JavaScript truthiness of a nullable numeric column (`!lat`):
null/absent and 0 are falsy, every other number truthy. -/
def jtruthy : Option ℚ → Bool
  | none => false
  | some q => decide (q ≠ 0)

/-- Display address built inside the `queryLLM` resolution mapper,
`Address, PostalCode City, Country`. -/
def fullAddressRow (r : ClientRow) : String :=
  r.Address ++ ", " ++ r.PostalCode ++ " " ++ r.City ++ ", " ++ r.Country

/-- Geocoding calls issued by the resolution block of `queryLLM`:
`response.relevantAddresses` is mapped through `Promise.all`; each mapper
looks up its row (`addresses.find(a => a.ID.toString() === relAddr.addressId)`,
modelled by `lookup`), returns null for a missing row, skips geocoding
when both coordinates are truthy, and otherwise fires `geocodeAddress`
at once.  The async mappers run synchronously up to that first await
while the array of promises is being built, so every geocoding fetch is
dispatched within the same instant `t0` — no delay is awaited anywhere
on this path. -/
def queryLLMGeoCalls (t0 : Nat) (lookup : String → Option ClientRow)
    (relevantAddresses : List String) : List GeoCall :=
  relevantAddresses.filterMap (fun addressId =>
    match lookup addressId with
    | none => none
    | some r =>
        if jtruthy r.Latitude && jtruthy r.Longitude then none
        else some ⟨t0, fullAddressRow r⟩)

/-- Counterexample to C2 as stated: the resolution batch inside
`queryLLM` — two referenced addresses lacking coordinates — has both of
its geocoding calls dispatched at instant 0: the calls are not separated
by any minimum delay (the 1-unit chain property fails) and the time
between the first and the last call is 0, not at least N − 1 = 1. -/
theorem queryLLM_resolution_no_delay :
    (queryLLMGeoCalls 0
        (fun aid =>
          if aid = "1" then some ⟨1, "c1", "A", "1", "X", "C", none, none⟩
          else if aid = "2" then some ⟨2, "c2", "B", "2", "Y", "C", none, none⟩
          else none)
        ["1", "2"]).length = 2 ∧
    (∀ g ∈ queryLLMGeoCalls 0
        (fun aid =>
          if aid = "1" then some ⟨1, "c1", "A", "1", "X", "C", none, none⟩
          else if aid = "2" then some ⟨2, "c2", "B", "2", "Y", "C", none, none⟩
          else none)
        ["1", "2"], g.time = 0) ∧
    ¬ List.Chain' (fun a b => a.time + 1 ≤ b.time)
        (queryLLMGeoCalls 0
          (fun aid =>
            if aid = "1" then some ⟨1, "c1", "A", "1", "X", "C", none, none⟩
            else if aid = "2" then some ⟨2, "c2", "B", "2", "Y", "C", none, none⟩
            else none)
          ["1", "2"]) ∧
    ¬ ((queryLLMGeoCalls 0
          (fun aid =>
            if aid = "1" then some ⟨1, "c1", "A", "1", "X", "C", none, none⟩
            else if aid = "2" then some ⟨2, "c2", "B", "2", "Y", "C", none, none⟩
            else none)
          ["1", "2"]).headD ⟨7, ""⟩).time + (2 - 1) ≤
      ((queryLLMGeoCalls 0
          (fun aid =>
            if aid = "1" then some ⟨1, "c1", "A", "1", "X", "C", none, none⟩
            else if aid = "2" then some ⟨2, "c2", "B", "2", "Y", "C", none, none⟩
            else none)
          ["1", "2"]).getLastD ⟨7, ""⟩).time := by
  have hcalls : queryLLMGeoCalls 0
      (fun aid =>
        if aid = "1" then some ⟨1, "c1", "A", "1", "X", "C", none, none⟩
        else if aid = "2" then some ⟨2, "c2", "B", "2", "Y", "C", none, none⟩
        else none)
      ["1", "2"] = [⟨0, "A, 1 X, C"⟩, ⟨0, "B, 2 Y, C"⟩] := by decide
  refine ⟨?_, ?_, ?_, ?_⟩
  · rw [hcalls]; rfl
  · rw [hcalls]; decide
  · rw [hcalls]
    intro h
    exact absurd (List.chain'_cons.mp h).1 (by decide)
  · rw [hcalls]; decide

end RagPipeline
